import Mathlib

/-!
Shallow embedding of `src/Rope.h`: a rope (tree of byte chunks) with
construction from a flat buffer, merging, appending, a balance loop,
indexed access and flattening.  `NodeRef` models `std::shared_ptr<Node>`
values (possibly null); null dereferences and out-of-bounds reads are made
explicit through `Option`/result types, and the unbounded loops of the
source are given explicit fuel.
-/

namespace RopeModel

/-- Bytes are modelled as natural numbers; the value 0 plays the role of the C NUL byte. -/
abbrev Byte := Nat

/-- Possibly-null reference to a `Rope::Node` (models `std::shared_ptr<Node>`).
A node carries the fields of the C++ struct: `size`, `lvl`, the optional owned
character buffer `str` (null for internal nodes), and child references `l`, `r`. -/
inductive NodeRef : Type where
  | null : NodeRef
  | node (size lvl : Nat) (str : Option (List Byte)) (l r : NodeRef) : NodeRef
deriving DecidableEq

namespace NodeRef

/-- Dereference `n->size`; `none` models a null-pointer dereference. -/
def size? : NodeRef → Option Nat
  | .null => none
  | .node s _ _ _ _ => some s

/-- Dereference `n->lvl`; `none` models a null-pointer dereference. -/
def lvl? : NodeRef → Option Nat
  | .null => none
  | .node _ lv _ _ _ => some lv

end NodeRef

/-- Models `std::strncpy(dst, src, n)` restricted to the n-byte span `src`
(Rope.h line 44): bytes are copied up to the first NUL (0); from there on the
remainder of the destination is filled with NUL.  Output length = input length. -/
def strncpyModel : List Byte → List Byte
  | [] => []
  | c :: cs => if c = 0 then List.replicate (cs.length + 1) 0 else c :: strncpyModel cs

/-- Shared tail of the two internal cases of Node(max_size, str, begin, end)
(Rope.h lines 47-59, identical in both branches): wrap two recursively built
children in an internal node with `size = end - begin` and
`lvl = max(l->lvl, r->lvl)` — note: no `+ 1` — exactly as in the source. -/
def joinBuilt (size : Nat) (lo ro : Option NodeRef) : Option NodeRef :=
  match lo, ro with
  | some l, some r =>
    match l.lvl?, r.lvl? with
    | some ll, some rl => some (.node size (max ll rl) none l r)
    | _, _ => none
  | _, _ => none

/-- Node(max_size, str, begin, end) (Rope.h lines 38-60), the recursive builder.
The explicit fuel stands for the C++ recursion; `e - b + 1` fuel always suffices
when `max_size ≥ 1` (running out of fuel, `none`, corresponds to the divide-by-zero
crash of `max_size = 0`).  A span of at most `max_size` bytes becomes a leaf whose
buffer is the `strncpy` image of the span; longer spans are split (at `max_size`,
or at the halfway point rounded down to a multiple of `max_size`) and the two
halves wrapped by `joinBuilt`. -/
def buildF : Nat → Nat → List Byte → Nat → Nat → Option NodeRef
  | 0, _, _, _, _ => none
  | fuel + 1, max_size, str, b, e =>
    let size := e - b
    if size ≤ max_size then
      some (.node size 0 (some (strncpyModel ((str.drop b).take size))) .null .null)
    else if size ≤ 2 * max_size then
      joinBuilt size (buildF fuel max_size str b (b + max_size))
        (buildF fuel max_size str (b + max_size) e)
    else
      let middle := size / max_size / 2 * max_size
      joinBuilt size (buildF fuel max_size str b (b + middle))
        (buildF fuel max_size str (b + middle) e)

/-- The builder with its sufficient fuel. -/
def buildNode (max_size : Nat) (str : List Byte) (b e : Nat) : Option NodeRef :=
  buildF (e - b + 1) max_size str b e

/-- Node(l, r) (Rope.h line 31): reads `l->size` and `r->size` unconditionally,
with no null check; sets `lvl = 0` and `str` to null. -/
def mkInternal (l r : NodeRef) : Option NodeRef :=
  match l.size?, r.size? with
  | some ls, some rs => some (.node (ls + rs) 0 none l r)
  | _, _ => none

/-- string(node) (Rope.h lines 114-122): a node with non-null `str` yields
`std::string(str, size)`, i.e. the first `size` bytes of its buffer; otherwise the
concatenation of the children's strings.  Dereferencing a null reference is `none`. -/
def stringN : NodeRef → Option (List Byte)
  | .null => none
  | .node size _ str l r =>
    match str with
    | some s => some (s.take size)
    | none =>
      match stringN l, stringN r with
      | some sl, some sr => some (sl ++ sr)
      | _, _ => none

/-- rotate_right (Rope.h lines 79-93).  `aux = node->l`; `node->l = aux->r`;
`aux->r = node`; both touched nodes get `size` = sum of child sizes and
`lvl` = max of child *sizes* (as in the source).  Null dereferences are `none`. -/
def rotate_right (node : NodeRef) : Option NodeRef :=
  match node with
  | .null => none
  | .node _ _ nstr nl nr =>
    match nl with
    | .null => none
    | .node _ _ astr al ar =>
      match ar.size?, nr.size? with
      | some ars, some nrs =>
        let node1 : NodeRef := .node (ars + nrs) (max ars nrs) nstr ar nr
        match al.size? with
        | some als => some (.node (als + (ars + nrs)) (max als (ars + nrs)) astr al node1)
        | none => none
      | _, _ => none

/-- rotate_left (Rope.h lines 97-111), symmetric to `rotate_right`. -/
def rotate_left (node : NodeRef) : Option NodeRef :=
  match node with
  | .null => none
  | .node _ _ nstr nl nr =>
    match nr with
    | .null => none
    | .node _ _ astr al ar =>
      match nl.size?, al.size? with
      | some nls, some als =>
        let node1 : NodeRef := .node (nls + als) (max nls als) nstr nl al
        match ar.size? with
        | some ars => some (.node ((nls + als) + ars) (max (nls + als) ars) astr node1 ar)
        | none => none
      | _, _ => none

/-- The while loop of append(str, begin, end) (Rope.h lines 171-187), with fuel
for the unbounded while.  `diff` models the `int` difference of the two `size_t`
`lvl` values, which coincides with the mathematical difference at the magnitudes
arising here. -/
def balanceF : Nat → NodeRef → Option NodeRef
  | 0, _ => none
  | fuel + 1, root =>
    match root with
    | .null => none
    | .node _ _ _ l r =>
      match l.lvl?, r.lvl? with
      | some ll, some rl =>
        let diff : Int := (ll : Int) - (rl : Int)
        if 2 < diff then (rotate_right root).bind (balanceF fuel)
        else if diff < -2 then (rotate_left root).bind (balanceF fuel)
        else some root
      | _, _ => none

/-- The Rope handle (Rope.h lines 12, 73-75): the chunk bound `MAX_STR` and the
root reference (null for an empty rope). -/
structure Rope where
  MAX_STR : Nat
  root : NodeRef
deriving DecidableEq

/-- Rope(max_size) (line 126): an empty rope. -/
def mkEmpty (max_size : Nat) : Rope := ⟨max_size, .null⟩

/-- Rope(str, begin, end, max_size) (line 133): always builds a node, even for an
empty span. -/
def Rope.ofString (str : List Byte) (b e : Nat) (max_size : Nat) : Option Rope :=
  (buildNode max_size str b e).map (⟨max_size, ·⟩)

/-- Error outcomes of merge: the explicit `std::invalid_argument` throw, and the
null-pointer dereference inside Node(l, r) when an operand rope is empty. -/
inductive RopeErr where
  | invalidArgument : RopeErr
  | nullDeref : RopeErr
deriving DecidableEq

/-- merge(l, r) (Rope.h lines 140-148): throws invalid_argument when the two
`MAX_STR` differ, otherwise joins the two roots under Node(l.root, r.root). -/
def Rope.merge (l r : Rope) : Except RopeErr Rope :=
  if l.MAX_STR ≠ r.MAX_STR then .error .invalidArgument
  else
    match mkInternal l.root r.root with
    | some n => .ok ⟨r.MAX_STR, n⟩
    | none => .error .nullDeref

/-- append(Rope&) (Rope.h lines 152-155): `root = make_shared<Node>(root, rope.root)`.
No `MAX_STR` check, no balancing; `none` models the null dereference in Node(l, r). -/
def Rope.appendRope (self other : Rope) : Option Rope :=
  (mkInternal self.root other.root).map fun n => ⟨self.MAX_STR, n⟩

/-- append(str, begin, end) (Rope.h lines 166-188): build a subtree from the span,
join it under a fresh internal node, then run the balance loop (the fuel models the
unbounded while). -/
def Rope.appendStr (self : Rope) (str : List Byte) (b e : Nat) (fuel : Nat) : Option Rope :=
  (buildNode self.MAX_STR str b e).bind fun aux =>
    (mkInternal self.root aux).bind fun root0 =>
      (balanceF fuel root0).map fun n => ⟨self.MAX_STR, n⟩

/-- string() (lines 212-215): flatten from the root. -/
def Rope.string (r : Rope) : Option (List Byte) := stringN r.root

/-- size() (lines 157-160): returns `root->size`, dereferencing `root`
unconditionally (`none` for an empty rope models the null dereference). -/
def Rope.sizeM (r : Rope) : Option Nat := r.root.size?

/-- Outcome of operator[]: a returned byte, a null-pointer dereference, a read
beyond the leaf buffer, or running out of fuel (the loop not having terminated). -/
inductive IdxRes where
  | ok (c : Byte) : IdxRes
  | nullPtr : IdxRes
  | badRead : IdxRes
  | diverge : IdxRes
deriving DecidableEq

/-- The loop of operator[] (Rope.h lines 195-207), transcribed exactly: the loop
condition is `root->size >= index` and both descents read `root->l`/`root->r` —
the source tests and descends from `root`, never from `curr`.  On loop exit the
result is `curr->str[index]`. -/
def idxLoopF : Nat → NodeRef → NodeRef → Nat → IdxRes
  | 0, _, _, _ => .diverge
  | fuel + 1, root, curr, index =>
    match root with
    | .null => .nullPtr
    | .node rs _ _ rl rr =>
      if index ≤ rs then
        match rl with
        | .null => .nullPtr
        | .node ls _ _ _ _ =>
          if index ≤ ls then idxLoopF fuel root rl index
          else idxLoopF fuel root rr (index - ls)
      else
        match curr with
        | .null => .nullPtr
        | .node _ _ str _ _ =>
          match str with
          | none => .nullPtr
          | some s => if h : index < s.length then .ok (s.get ⟨index, h⟩) else .badRead

/-- operator[] (Rope.h lines 193-208): `curr` starts at `root`. -/
def Rope.opIndex (r : Rope) (index : Nat) (fuel : Nat) : IdxRes :=
  idxLoopF fuel r.root r.root index

/-- Modelled from the spec: the height every node should carry — 0 for a leaf
(a node holding a buffer), `1 + max` of the children's heights for an internal
node.  Used to compare the code's `lvl` metadata against the spec's height. -/
def heightSpec : NodeRef → Nat
  | .null => 0
  | .node _ _ (some _) _ _ => 0
  | .node _ _ none l r => 1 + max (heightSpec l) (heightSpec r)

/-- The balance factor the loop tests: difference of the stored `lvl` values of
the two children. -/
def balFactor : NodeRef → Option Int
  | .null => none
  | .node _ _ _ l r =>
    match l.lvl?, r.lvl? with
    | some ll, some rl => some ((ll : Int) - (rl : Int))
    | _, _ => none

/-- The spec's balance factor: difference of the true heights of the two children. -/
def specBalFactor : NodeRef → Option Int
  | .null => none
  | .node _ _ _ l r => some ((heightSpec l : Int) - (heightSpec r : Int))

/-- Every leaf (node with a buffer) in the tree has `size ≤ mx`. -/
def leavesLE (mx : Nat) : NodeRef → Bool
  | .null => true
  | .node s _ (some _) _ _ => decide (s ≤ mx)
  | .node _ _ none l r => leavesLE mx l && leavesLE mx r

/-- Every leaf (node with a buffer) in the tree has `0 < size`. -/
def leavesPos : NodeRef → Bool
  | .null => true
  | .node s _ (some _) _ _ => decide (0 < s)
  | .node _ _ none l r => leavesPos l && leavesPos r

/-- Leaf holding the single byte 97. -/
def leaf97 : NodeRef := .node 1 0 (some [97]) .null .null

/-- Leaf holding the single byte 98. -/
def leaf98 : NodeRef := .node 1 0 (some [98]) .null .null

/-- Leaf holding the single byte 99. -/
def leaf99 : NodeRef := .node 1 0 (some [99]) .null .null

/-- The rope built from bytes [97, 98] with max_chunk 1. -/
def ropeAB : Rope := ⟨1, .node 2 0 none leaf97 leaf98⟩

/-- Leaf of three 97-bytes. -/
def leafA3 : NodeRef := .node 3 0 (some [97, 97, 97]) .null .null

/-- Leaf of three 98-bytes. -/
def leafB3 : NodeRef := .node 3 0 (some [98, 98, 98]) .null .null

/-- Leaf of four 99-bytes. -/
def leafC4 : NodeRef := .node 4 0 (some [99, 99, 99, 99]) .null .null

/-- A ten-byte tree whose left subtree holds six bytes: rotating it right
recomputes `lvl` from the child sizes. -/
def nodeT : NodeRef := .node 10 0 none (.node 6 0 none leafA3 leafB3) leafC4

/-- Rope of one byte with max_chunk 4. -/
def ropeM4 : Rope := ⟨4, leaf97⟩

/-- Rope of one byte with max_chunk 8. -/
def ropeM8 : Rope := ⟨8, leaf98⟩

/-- Rope of one byte (98) with max_chunk 4. -/
def ropeB4 : Rope := ⟨4, leaf98⟩

/-- An internal two-leaf tree whose `lvl` field is 5: feeding such a tree to the
balance loop makes a rotation fire, which separates functions that invoke the
balancer from functions that do not. -/
def unbalL : NodeRef := .node 2 5 none leaf97 leaf98

/-- Rope with root `unbalL` and max_chunk 4. -/
def ropeU : Rope := ⟨4, unbalL⟩

/-- Rope of one byte (99) with max_chunk 4. -/
def ropeC : Rope := ⟨4, leaf99⟩

/-- Spec description of append(rope, other): rebind the root to the joining
internal node, then invoke the Balancer on the new root (the fuel models the
balancer's while loop). -/
def appendRope_spec (self other : Rope) (fuel : Nat) : Option Rope :=
  (mkInternal self.root other.root).bind fun n =>
    (balanceF fuel n).map fun m => ⟨self.MAX_STR, m⟩

/-- Build "ab" with max_chunk 1, then append three further single-byte spans. -/
def chain3 : Option Rope :=
  (Rope.ofString [97, 98] 0 2 1).bind fun r0 =>
    (r0.appendStr [99] 0 1 9).bind fun r1 =>
      (r1.appendStr [100] 0 1 9).bind fun r2 =>
        r2.appendStr [101] 0 1 9

/-- The tree built from bytes [97, 98, 99] with max_chunk 2. -/
def nodeABC : NodeRef := .node 3 0 none (.node 2 0 (some [97, 98]) .null .null) leaf99

/-- A copy of `strncpy` keeps a NUL-free span unchanged. -/
theorem strncpyModel_eq_self (s : List Byte) (h : ∀ c ∈ s, c ≠ 0) :
    strncpyModel s = s := by
  induction s with
  | nil => rfl
  | cons c cs ih =>
    have hc : c ≠ 0 := h c (List.mem_cons_self c cs)
    simp only [strncpyModel, if_neg hc]
    exact congrArg (c :: ·) (ih fun x hx => h x (List.mem_cons_of_mem c hx))

/-- The builder's middle split point is at least `mx` once the span exceeds two
chunks. -/
theorem middle_ge (size mx : Nat) (hm : 0 < mx) (h : 2 * mx < size) :
    mx ≤ size / mx / 2 * mx := by
  have h2 : 2 ≤ size / mx := (Nat.le_div_iff_mul_le hm).2 (by omega)
  have h1 : 1 ≤ size / mx / 2 := (Nat.le_div_iff_mul_le (by omega)).2 (by omega)
  calc mx = 1 * mx := (Nat.one_mul mx).symm
    _ ≤ size / mx / 2 * mx := Nat.mul_le_mul_right mx h1

/-- The builder's middle split point is strictly inside the span. -/
theorem middle_lt (size mx : Nat) (h0 : 0 < size) :
    size / mx / 2 * mx < size := by
  rcases Nat.eq_zero_or_pos mx with hmx | hmx
  · subst hmx; simpa using h0
  · have hq : size / mx * mx ≤ size := Nat.div_mul_le_self size mx
    have hhalf : size / mx / 2 * mx ≤ size / mx * mx / 2 := by
      rw [Nat.le_div_iff_mul_le (by omega : 0 < 2)]
      calc size / mx / 2 * mx * 2 = size / mx / 2 * 2 * mx := by ring
        _ ≤ size / mx * mx := Nat.mul_le_mul_right mx (Nat.div_mul_le_self _ 2)
    calc size / mx / 2 * mx ≤ size / mx * mx / 2 := hhalf
      _ ≤ size / 2 := Nat.div_le_div_right hq
      _ < size := Nat.div_lt_self h0 (by omega)

/-- With positive `mx` and fuel exceeding the span, the builder succeeds and its
root carries `lvl = 0` (the builder takes `max` of child lvls without adding 1). -/
theorem buildF_isSome (f : Nat) : ∀ (mx : Nat) (str : List Byte) (b e : Nat),
    0 < mx → e - b < f →
    ∃ n, buildF f mx str b e = some n ∧ n.lvl? = some 0 := by
  induction f with
  | zero => intro mx str b e _ h; omega
  | succ f ih =>
    intro mx str b e hm hf
    by_cases h1 : e - b ≤ mx
    · exact ⟨.node (e - b) 0 (some (strncpyModel ((str.drop b).take (e - b)))) .null .null,
        by simp [buildF, joinBuilt, h1], rfl⟩
    · by_cases h2 : e - b ≤ 2 * mx
      · obtain ⟨l, hl, hll⟩ := ih mx str b (b + mx) hm (by omega)
        obtain ⟨r, hr, hrl⟩ := ih mx str (b + mx) e hm (by omega)
        exact ⟨.node (e - b) 0 none l r,
          by simp [buildF, joinBuilt, h1, h2, hl, hr, hll, hrl], rfl⟩
      · have hge := middle_ge (e - b) mx hm (by omega)
        have hlt := middle_lt (e - b) mx (by omega)
        obtain ⟨l, hl, hll⟩ :=
          ih mx str b (b + (e - b) / mx / 2 * mx) hm (by omega)
        obtain ⟨r, hr, hrl⟩ :=
          ih mx str (b + (e - b) / mx / 2 * mx) e hm (by omega)
        exact ⟨.node (e - b) 0 none l r,
          by simp [buildF, joinBuilt, h1, h2, hl, hr, hll, hrl], rfl⟩

/-- Splicing the two sub-spans of the builder's split reproduces the whole span. -/
theorem span_splice (str : List Byte) (b e m : Nat) (hmle : m ≤ e - b) :
    (str.drop b).take m ++ (str.drop (b + m)).take (e - b - m) =
      (str.drop b).take (e - b) := by
  have hdd : str.drop (b + m) = (str.drop b).drop m := (List.drop_drop m b str).symm
  rw [hdd, ← List.take_add, Nat.add_sub_cancel' hmle]

/-- NUL-freeness of a span passes to the left sub-span. -/
theorem mem_span_left {str : List Byte} {b k : Nat} (m : Nat) (hmk : m ≤ k)
    (hz : ∀ c ∈ (str.drop b).take k, c ≠ 0) :
    ∀ c ∈ (str.drop b).take m, c ≠ 0 := by
  intro c hc
  apply hz
  have ht : (str.drop b).take m = ((str.drop b).take k).take m := by
    rw [List.take_take, Nat.min_eq_left hmk]
  exact List.take_subset m _ (ht ▸ hc)

/-- NUL-freeness of a span passes to the right sub-span. -/
theorem mem_span_right {str : List Byte} {b k : Nat} (m : Nat)
    (hz : ∀ c ∈ (str.drop b).take k, c ≠ 0) :
    ∀ c ∈ (str.drop (b + m)).take (k - m), c ≠ 0 := by
  intro c hc
  apply hz
  have h1 : str.drop (b + m) = (str.drop b).drop m := (List.drop_drop m b str).symm
  have h2 : ((str.drop b).drop m).take (k - m) = ((str.drop b).take k).drop m :=
    (List.drop_take k m (str.drop b)).symm
  rw [h1, h2] at hc
  exact List.drop_subset m _ hc

/-- With positive `mx`, sufficient fuel, an in-bounds span and NUL-free content,
the builder succeeds and flattening its tree returns exactly the span. -/
theorem buildF_string (f : Nat) : ∀ (mx : Nat) (str : List Byte) (b e : Nat),
    0 < mx → e - b < f → b ≤ e → e ≤ str.length →
    (∀ c ∈ (str.drop b).take (e - b), c ≠ 0) →
    ∃ n, buildF f mx str b e = some n ∧
      stringN n = some ((str.drop b).take (e - b)) := by
  induction f with
  | zero => intro mx str b e _ h _ _ _; omega
  | succ f ih =>
    intro mx str b e hm hf hbe hlen hz
    by_cases h1 : e - b ≤ mx
    · refine ⟨.node (e - b) 0 (some (strncpyModel ((str.drop b).take (e - b)))) .null .null,
        by simp [buildF, joinBuilt, h1], ?_⟩
      have hspan : ((str.drop b).take (e - b)).length = e - b := by
        simp only [List.length_take, List.length_drop]
        omega
      simp only [stringN, strncpyModel_eq_self _ hz]
      rw [List.take_of_length_le (le_of_eq hspan)]
    · by_cases h2 : e - b ≤ 2 * mx
      · obtain ⟨l, hl, hsl⟩ := ih mx str b (b + mx) hm (by omega) (by omega) (by omega)
          (by have := @mem_span_left str b (e - b) mx (by omega) hz
              simpa [Nat.add_sub_cancel_left] using this)
        obtain ⟨r, hr, hsr⟩ := ih mx str (b + mx) e hm (by omega) (by omega) hlen
          (by have := @mem_span_right str b (e - b) mx hz
              simpa [Nat.sub_sub] using this)
        obtain ⟨l0, hl0, hll⟩ := buildF_isSome f mx str b (b + mx) hm (by omega)
        obtain ⟨r0, hr0, hrl⟩ := buildF_isSome f mx str (b + mx) e hm (by omega)
        rw [hl] at hl0; rw [hr] at hr0
        cases hl0; cases hr0
        refine ⟨.node (e - b) 0 none l r,
          by simp [buildF, joinBuilt, h1, h2, hl, hr, hll, hrl], ?_⟩
        have hb' : (b + mx) - b = mx := by omega
        rw [hb'] at hsl
        simp only [stringN, hsl, hsr]
        rw [show e - (b + mx) = e - b - mx by omega,
          span_splice str b e mx (by omega)]
      · have hge := middle_ge (e - b) mx hm (by omega)
        have hlt := middle_lt (e - b) mx (by omega)
        set m := (e - b) / mx / 2 * mx with hmdef
        obtain ⟨l, hl, hsl⟩ := ih mx str b (b + m) hm (by omega) (by omega) (by omega)
          (by have := @mem_span_left str b (e - b) m (by omega) hz
              simpa [Nat.add_sub_cancel_left] using this)
        obtain ⟨r, hr, hsr⟩ := ih mx str (b + m) e hm (by omega) (by omega) hlen
          (by have := @mem_span_right str b (e - b) m hz
              simpa [Nat.sub_sub] using this)
        obtain ⟨l0, hl0, hll⟩ := buildF_isSome f mx str b (b + m) hm (by omega)
        obtain ⟨r0, hr0, hrl⟩ := buildF_isSome f mx str (b + m) e hm (by omega)
        rw [hl] at hl0; rw [hr] at hr0
        cases hl0; cases hr0
        refine ⟨.node (e - b) 0 none l r,
          by simp [buildF, joinBuilt, h1, h2, hl, hr, hll, hrl, hmdef], ?_⟩
        have hb' : (b + m) - b = m := by omega
        rw [hb'] at hsl
        simp only [stringN, hsl, hsr]
        rw [show e - (b + m) = e - b - m by omega,
          span_splice str b e m (by omega)]

/-- Inversion for `joinBuilt`: success means both children were built and carried
readable `lvl` values. -/
theorem joinBuilt_inv {size : Nat} {lo ro : Option NodeRef} {n : NodeRef}
    (h : joinBuilt size lo ro = some n) :
    ∃ l r ll rl, lo = some l ∧ ro = some r ∧ l.lvl? = some ll ∧ r.lvl? = some rl ∧
      n = .node size (max ll rl) none l r := by
  cases lo with
  | none => simp [joinBuilt] at h
  | some l =>
    cases ro with
    | none => simp [joinBuilt] at h
    | some r =>
      cases hll : l.lvl? with
      | none => simp [joinBuilt, hll] at h
      | some ll =>
        cases hrl : r.lvl? with
        | none => simp [joinBuilt, hll, hrl] at h
        | some rl =>
          simp only [joinBuilt, hll, hrl] at h
          cases h
          exact ⟨l, r, ll, rl, rfl, rfl, hll, hrl, rfl⟩

/-- Every tree the builder returns has all its leaves bounded by `mx`. -/
theorem buildF_leavesLE (f : Nat) : ∀ (mx : Nat) (str : List Byte) (b e : Nat) (n : NodeRef),
    buildF f mx str b e = some n → leavesLE mx n = true := by
  induction f with
  | zero => intro mx str b e n h; simp [buildF] at h
  | succ f ih =>
    intro mx str b e n h
    simp only [buildF] at h
    by_cases h1 : e - b ≤ mx
    · rw [if_pos h1] at h
      cases h
      simpa [leavesLE] using h1
    · rw [if_neg h1] at h
      by_cases h2 : e - b ≤ 2 * mx
      · rw [if_pos h2] at h
        obtain ⟨l, r, ll, rl, hl, hr, _, _, hn⟩ := joinBuilt_inv h
        subst hn
        simp [leavesLE, ih _ _ _ _ _ hl, ih _ _ _ _ _ hr]
      · rw [if_neg h2] at h
        obtain ⟨l, r, ll, rl, hl, hr, _, _, hn⟩ := joinBuilt_inv h
        subst hn
        simp [leavesLE, ih _ _ _ _ _ hl, ih _ _ _ _ _ hr]

/-- Repeatedly indexing into the two-leaf rope at index 0: the loop state never
changes after the first step, so the loop never terminates, for any fuel. -/
theorem idxLoop_ab_diverge (f : Nat) (curr : NodeRef) :
    idxLoopF f (.node 2 0 none leaf97 leaf98) curr 0 = .diverge := by
  induction f generalizing curr with
  | zero => rfl
  | succ f ih =>
    have hstep : idxLoopF (f + 1) (.node 2 0 none leaf97 leaf98) curr 0 =
        idxLoopF f (.node 2 0 none leaf97 leaf98) leaf97 0 := by
      simp [idxLoopF, leaf97]
    rw [hstep, ih]

/-- Node(l, r) on two non-null references: reads both sizes and produces the
joining internal node with `lvl = 0` and null `str`. -/
theorem mkInternal_nodes (a b : NodeRef) (ha : a ≠ .null) (hb : b ≠ .null) :
    ∃ sa sb, a.size? = some sa ∧ b.size? = some sb ∧
      mkInternal a b = some (.node (sa + sb) 0 none a b) := by
  cases a with
  | null => exact absurd rfl ha
  | node sa alv ast al ar =>
    cases b with
    | null => exact absurd rfl hb
    | node sb blv bst bl br => exact ⟨sa, sb, rfl, rfl, rfl⟩

/-- C1: the claim that operator[] returns toString()[i] for every i < size() by
the left/right descent walk fails: on the rope built from "ab" with max_chunk 1
(whose flattening is [97, 98]) the operator[] loop never terminates at the valid
index 0, for any amount of fuel, because the loop tests and descends from the
unchanging root instead of curr. -/
theorem c1_opIndex_diverges_on_valid_index :
    Rope.ofString [97, 98] 0 2 1 = some ropeAB ∧
    ropeAB.string = some [97, 98] ∧
    ∀ fuel : Nat, ropeAB.opIndex 0 fuel = IdxRes.diverge := by
  refine ⟨by decide, by decide, fun fuel => ?_⟩
  exact idxLoop_ab_diverge fuel ropeAB.root

/-- C3: the claim that indexed access raises OutOfRange exactly when the index
is ≥ size() fails: the code contains no OutOfRange check at all — at index
5 ≥ size 2 the loop is skipped and the internal root's null str buffer is
dereferenced (a crash, not an OutOfRange error), for any positive fuel. -/
theorem c3_no_out_of_range :
    ropeAB.sizeM = some 2 ∧
    ∀ fuel : Nat, ropeAB.opIndex 5 (fuel + 1) = IdxRes.nullPtr :=
  ⟨rfl, fun _ => rfl⟩

/-- C2 counterexample: a buffer containing a NUL byte does not round-trip,
because strncpy pads the rest of the chunk with NULs. -/
theorem c2_roundtrip_cex :
    (Rope.ofString [0, 65] 0 2 2).bind Rope.string ≠ some [0, 65] := by decide

/-- C2 (amended): for every buffer of non-NUL bytes and max_chunk ≥ 1, building
a rope from the whole buffer and flattening it returns the buffer. -/
theorem c2_roundtrip (B : List Byte) (mx : Nat) (hm : 0 < mx)
    (hz : ∀ c ∈ B, c ≠ 0) :
    (Rope.ofString B 0 B.length mx).bind Rope.string = some B := by
  obtain ⟨n, hn, hs⟩ := buildF_string (B.length + 1) mx B 0 B.length hm (by omega)
    (by omega) le_rfl (by simpa using hz)
  have hb : buildNode mx B 0 B.length = some n := by simpa [buildNode] using hn
  simp only [Nat.sub_zero, List.drop_zero, List.take_length] at hs
  simp [Rope.ofString, hb, Rope.string, hs]

/-- Witness for the C2 theorem at the buffer "hi" with max_chunk 1. -/
theorem c2_roundtrip_witness :
    (Rope.ofString [104, 105] 0 [104, 105].length 1).bind Rope.string =
      some [104, 105] :=
  c2_roundtrip [104, 105] 1 (by decide) (by decide)

/-- C4: the claim that `lvl` equals the spec height (0 at leaves, 1 + max of the
children's heights at internal nodes) fails everywhere: the builder's internal
node over "ab" has lvl 0 where the spec height is 1, Node(l, r) sets lvl 0 where
the spec height is 1, and rotate_right recomputes lvl from the child sizes
(giving 7 on a ten-byte tree of spec height 2). -/
theorem c4_lvl_is_not_spec_height :
    ((buildNode 1 [97, 98] 0 2).bind NodeRef.lvl? = some 0 ∧
      (buildNode 1 [97, 98] 0 2).map heightSpec = some 1) ∧
    ((mkInternal leafA3 leafC4).bind NodeRef.lvl? = some 0 ∧
      (mkInternal leafA3 leafC4).map heightSpec = some 1) ∧
    ((rotate_right nodeT).bind NodeRef.lvl? = some 7 ∧
      (rotate_right nodeT).map heightSpec = some 2) := by decide

/-- C5 counterexample: after a terminating sequence of appends (build "ab" with
max_chunk 1, then append three single bytes) the spec's balance factor at the
root — the difference of the children's true heights — is 3, outside [-2, 2]:
the loop never rotates because it tests the lvl metadata, which is always 0. -/
theorem c5_spec_height_factor_cex :
    (chain3.bind fun r => specBalFactor r.root) = some 3 ∧
    (chain3.bind fun r =>
      (specBalFactor r.root).map fun d => decide (-2 ≤ d ∧ d ≤ 2)) = some false := by
  constructor
  · decide
  · decide

/-- C5 (amended): appending a raw span to a rope whose root carries `lvl = 0`
(as every rope the program constructs does) terminates: the balance loop exits
on its very first check for every positive fuel, with the tested balance factor
— the difference of the children's `lvl` fields — within [-2, 2]. -/
theorem c5_append_terminates_lvl_balanced (r : Rope) (s : List Byte) (b e fuel : Nat)
    (hm : 0 < r.MAX_STR) (_hbe : b ≤ e) (h0 : r.root.lvl? = some 0) :
    ∃ n : NodeRef, r.appendStr s b e (fuel + 1) = some ⟨r.MAX_STR, n⟩ ∧
      r.appendStr s b e 1 = some ⟨r.MAX_STR, n⟩ ∧
      ∃ d : Int, balFactor n = some d ∧ -2 ≤ d ∧ d ≤ 2 := by
  obtain ⟨aux, haux, hauxl⟩ := buildF_isSome (e - b + 1) r.MAX_STR s b e hm (by omega)
  have hauxnn : aux ≠ .null := by
    intro hh; rw [hh] at hauxl; simp [NodeRef.lvl?] at hauxl
  have hrnn : r.root ≠ .null := by
    intro hh; rw [hh] at h0; simp [NodeRef.lvl?] at h0
  obtain ⟨sa, sb', hsa, hsb, hmk⟩ := mkInternal_nodes r.root aux hrnn hauxnn
  have hbal : ∀ g : Nat, balanceF (g + 1) (.node (sa + sb') 0 none r.root aux) =
      some (.node (sa + sb') 0 none r.root aux) := by
    intro g
    simp [balanceF, h0, hauxl]
  refine ⟨.node (sa + sb') 0 none r.root aux, ?_, ?_, 0, ?_, by omega, by omega⟩
  · simp [Rope.appendStr, buildNode, haux, hmk, hbal fuel]
  · simpa [Rope.appendStr, buildNode, haux, hmk] using hbal 0
  · simp [balFactor, h0, hauxl]

/-- Witness for the C5 theorem: append "!" to the "ab" rope. -/
theorem c5_witness :
    ∃ n : NodeRef, ropeAB.appendStr [33] 0 1 (0 + 1) = some ⟨ropeAB.MAX_STR, n⟩ ∧
      ropeAB.appendStr [33] 0 1 1 = some ⟨ropeAB.MAX_STR, n⟩ ∧
      ∃ d : Int, balFactor n = some d ∧ -2 ≤ d ∧ d ≤ 2 :=
  c5_append_terminates_lvl_balanced ropeAB [33] 0 1 0 (by decide) (by decide) (by decide)

/-- C6 counterexample: append(Rope&) differs from the spec's join-then-balance:
on a left operand whose root carries lvl 5 the balancer would rotate (and its
loop terminates — the result is fuel-independent), yet the code's append returns
the unrotated join. -/
theorem c6_append_balancer_cex :
    ropeU.appendRope ropeC ≠ appendRope_spec ropeU ropeC 10 ∧
    appendRope_spec ropeU ropeC 10 = appendRope_spec ropeU ropeC 3 := by
  constructor
  · decide
  · decide

/-- C6 (amended): append(Rope&) only rebinds the root to the new internal node
whose children are the two old roots (lvl 0, no str) and returns; no balancer
runs on the new root. -/
theorem c6_append_rope_joins_without_balancing (a b : Rope)
    (ha : a.root ≠ .null) (hb : b.root ≠ .null) :
    ∃ sa sb, a.root.size? = some sa ∧ b.root.size? = some sb ∧
      a.appendRope b = some ⟨a.MAX_STR, .node (sa + sb) 0 none a.root b.root⟩ := by
  obtain ⟨sa, sb, h1, h2, h3⟩ := mkInternal_nodes a.root b.root ha hb
  exact ⟨sa, sb, h1, h2, by simp [Rope.appendRope, h3]⟩

/-- Witness for the C6 theorem at two one-byte ropes. -/
theorem c6_witness :
    ∃ sa sb, ropeM4.root.size? = some sa ∧ ropeB4.root.size? = some sb ∧
      ropeM4.appendRope ropeB4 =
        some ⟨ropeM4.MAX_STR, .node (sa + sb) 0 none ropeM4.root ropeB4.root⟩ :=
  c6_append_rope_joins_without_balancing ropeM4 ropeB4 (by decide) (by decide)

/-- C7 counterexample: the rope-to-rope append does not fail on mismatched
max_chunk configurations (4 versus 8): it succeeds and joins the roots. -/
theorem c7_append_mismatch_cex :
    ropeM4.MAX_STR ≠ ropeM8.MAX_STR ∧
    ropeM4.appendRope ropeM8 = some ⟨4, .node 2 0 none leaf97 leaf98⟩ := by
  constructor
  · decide
  · decide

/-- C7 (amended): only the static merge checks the configurations — it fails
with InvalidArgument exactly on mismatched max_chunk and returns a new rope on a
match (given non-empty operands); the rope-to-rope append performs no check and
succeeds for any two non-empty ropes. -/
theorem c7_merge_checks_append_does_not :
    (∀ a b : Rope, a.MAX_STR ≠ b.MAX_STR →
      Rope.merge a b = .error .invalidArgument) ∧
    (∀ a b : Rope, a.MAX_STR = b.MAX_STR → a.root ≠ .null → b.root ≠ .null →
      ∃ n, Rope.merge a b = .ok ⟨b.MAX_STR, n⟩) ∧
    (∀ a b : Rope, a.root ≠ .null → b.root ≠ .null →
      ∃ r', a.appendRope b = some r') := by
  refine ⟨fun a b h => by simp [Rope.merge, h], fun a b hmx ha hb => ?_,
    fun a b ha hb => ?_⟩
  · obtain ⟨sa, sb, h1, h2, h3⟩ := mkInternal_nodes a.root b.root ha hb
    exact ⟨.node (sa + sb) 0 none a.root b.root, by simp [Rope.merge, hmx, h3]⟩
  · obtain ⟨sa, sb, h1, h2, h3⟩ := mkInternal_nodes a.root b.root ha hb
    exact ⟨⟨a.MAX_STR, .node (sa + sb) 0 none a.root b.root⟩,
      by simp [Rope.appendRope, h3]⟩

/-- Witness for the C7 theorem: mismatched ropes make merge throw, matched
non-empty ropes merge, and appendRope succeeds regardless. -/
theorem c7_witness :
    Rope.merge ropeM4 ropeM8 = .error .invalidArgument ∧
    (∃ n, Rope.merge ropeM4 ropeB4 = .ok ⟨ropeB4.MAX_STR, n⟩) ∧
    (∃ r', ropeM4.appendRope ropeM8 = some r') :=
  ⟨c7_merge_checks_append_does_not.1 ropeM4 ropeM8 (by decide),
    c7_merge_checks_append_does_not.2.1 ropeM4 ropeB4 (by decide) (by decide) (by decide),
    c7_merge_checks_append_does_not.2.2 ropeM4 ropeM8 (by decide) (by decide)⟩

/-- C8: the claim that size() returns 0 for an empty rope fails: size() returns
root->size for a non-empty rope, but on an empty rope it dereferences the null
root (modelled as none) instead of returning 0. -/
theorem c8_size_derefs_null_root :
    (∀ (m s lv : Nat) (st : Option (List Byte)) (l r : NodeRef),
      Rope.sizeM ⟨m, .node s lv st l r⟩ = some s) ∧
    Rope.sizeM (mkEmpty 20) = none :=
  ⟨fun _ _ _ _ _ _ => rfl, rfl⟩

/-- C9 counterexample: building from the empty span produces a leaf of size 0,
violating the claimed lower bound 0 < size. -/
theorem c9_zero_size_leaf_cex :
    buildNode 5 [] 0 0 = some (.node 0 0 (some []) .null .null) ∧
    (buildNode 5 [] 0 0).map leavesPos = some false := by
  constructor
  · decide
  · decide

/-- C9 (amended): every leaf in a tree returned by the builder has
size ≤ max_chunk; the lower bound 0 < size does not hold (see the
counterexample), and no other operation creates or resizes leaves. -/
theorem c9_builder_leaves_le (mx : Nat) (str : List Byte) (b e : Nat) (n : NodeRef)
    (h : buildNode mx str b e = some n) : leavesLE mx n = true :=
  buildF_leavesLE (e - b + 1) mx str b e n h

/-- Witness for the C9 theorem at the buffer "abc" with max_chunk 2. -/
theorem c9_witness : leavesLE 2 nodeABC = true :=
  c9_builder_leaves_le 2 [97, 98, 99] 0 3 nodeABC (by decide)

/-- C10: Node(l, r) reads both operand roots' sizes with no null check, so merge
and both appends are only defined on non-empty operands (where they succeed /
reach the join), and each operation reaches the null-child access branch when
an operand rope is empty. -/
theorem c10_join_derefs_roots :
    (∀ a b : Rope, a.root ≠ .null → b.root ≠ .null →
      (∃ r', a.appendRope b = some r') ∧
      (a.MAX_STR = b.MAX_STR → ∃ r', Rope.merge a b = .ok r')) ∧
    Rope.merge (mkEmpty 4) ropeM4 = .error .nullDeref ∧
    ropeM4.appendRope (mkEmpty 4) = none ∧
    (mkEmpty 4).appendStr [97] 0 1 5 = none := by
  refine ⟨fun a b ha hb => ?_, rfl, rfl, rfl⟩
  obtain ⟨sa, sb, h1, h2, h3⟩ := mkInternal_nodes a.root b.root ha hb
  refine ⟨⟨⟨a.MAX_STR, .node (sa + sb) 0 none a.root b.root⟩,
    by simp [Rope.appendRope, h3]⟩, fun hmx => ?_⟩
  exact ⟨⟨b.MAX_STR, .node (sa + sb) 0 none a.root b.root⟩,
    by simp [Rope.merge, hmx, h3]⟩

/-- Witness for the C10 theorem at two one-byte ropes with max_chunk 4. -/
theorem c10_witness :
    (∃ r', ropeM4.appendRope ropeB4 = some r') ∧
    (ropeM4.MAX_STR = ropeB4.MAX_STR → ∃ r', Rope.merge ropeM4 ropeB4 = .ok r') :=
  c10_join_derefs_roots.1 ropeM4 ropeB4 (by decide) (by decide)

end RopeModel
